import Mathlib

set_option maxRecDepth 8000

/-!
Shallow embedding of the ApplyExif utility (apply_exif.py): the contiguous-index
grouper, the per-column autofill of a contiguous selection, the shutter-speed
normalizer, and the image/row count check, together with theorems about them.
Machine state (the Treeview column being filled, the mutable list passed to the
grouper) is passed explicitly; Python exceptions are modelled as error results.
-/

-- ===== Python value and string helpers =====

/-- Result of a Python call: a normal value or a raised exception. -/
inductive PyResult (α : Type) where
  | ok (a : α)
  | exn
  deriving DecidableEq

/-- Value returned by ss_to_float: a float (modelled exactly as a rational),
a string, or None (the implicit return of the fallthrough branch). -/
inductive PyVal where
  | num (q : ℚ)
  | str (s : String)
  | pyNone
  deriving DecidableEq

/-- The apostrophe character (codepoint 39). -/
def aposChar : Char := Char.ofNat 39

/-- The double-quote character (codepoint 34). -/
def quoteChar : Char := Char.ofNat 34

/-- Python str.split(sep) for a one-character separator: splits at every
occurrence, keeping empty pieces; the empty string yields one empty piece. -/
def splitOnChar (c : Char) : List Char → List (List Char)
  | [] => [[]]
  | a :: as =>
    match splitOnChar c as with
    | [] => if a = c then [[], []] else [[a]]
    | g :: gs => if a = c then [] :: g :: gs else (a :: g) :: gs

/-- Numeric value of a list of decimal digit characters. -/
def decDigitsVal (l : List Char) : Nat := l.foldl (fun n c => n * 10 + (c.toNat - 48)) 0

/-- Model of the Python float(str) constructor restricted to plain decimal
literals (optional sign, digits, at most one point); the exponent, infinity and
underscore forms are never produced by this data. Failure models ValueError. -/
def pyFloatChars (l : List Char) : Option ℚ :=
  let sb : Int × List Char :=
    match l with
    | c :: rest => if c = '-' then (-1, rest) else if c = '+' then (1, rest) else (1, l)
    | [] => (1, l)
  match splitOnChar '.' sb.2 with
  | [ip] =>
    if ip ≠ [] ∧ ip.all Char.isDigit then some (mkRat (sb.1 * (decDigitsVal ip : Int)) 1)
    else none
  | [ip, fp] =>
    if (ip ≠ [] ∨ fp ≠ []) ∧ ip.all Char.isDigit ∧ fp.all Char.isDigit then
      some (mkRat (sb.1 * ((decDigitsVal ip * 10 ^ fp.length + decDigitsVal fp : Nat) : Int))
        (10 ^ fp.length))
    else none
  | _ => none

/-- float(s) on a string. -/
def pyFloat (s : String) : Option ℚ := pyFloatChars s.data

/-- str.isdecimal: nonempty and every character a decimal digit (ASCII model). -/
def isdecimal (s : String) : Bool := !s.data.isEmpty && s.data.all Char.isDigit

/-- str.endswith for a one-character suffix. -/
def endsWithChar (s : String) (c : Char) : Bool := s.data.getLast? = some c

/-- ss[:-1]. -/
def dropLastChar (s : String) : String := String.mk s.data.dropLast

/-- The unpacking pattern a, b = s.split(c): succeeds only when the split has
exactly two pieces, anything else raises ValueError. -/
def splitTwoChar (s : String) (c : Char) : Option (String × String) :=
  match splitOnChar c s.data with
  | [a, b] => some (String.mk a, String.mk b)
  | _ => none

/-- Python string-times-integer repetition. -/
def pyStrMul (s : String) (n : Nat) : String := String.join (List.replicate n s)

/-- s.split(c)[-1]: the piece after the last occurrence of c. -/
def lastSplitPart (s : String) (c : Char) : String :=
  String.mk ((splitOnChar c s.data).getLastD [])

/-- The suffix strip at the top of ss_to_float: drop one trailing letter s or
one trailing double quote. -/
def stripTrailing (ss : String) : String :=
  if endsWithChar ss 's' || endsWithChar ss quoteChar then dropLastChar ss else ss

/-- Embeds ss_to_float from apply_exif.py. ValueError (from float() or tuple
unpacking) and ZeroDivisionError are modelled as PyResult.exn; the printing
fallthrough branch returns None. -/
def ss_to_float (ss : String) : PyResult PyVal :=
  if ss = "-" then .ok (.str "")
  else
    let ss2 := stripTrailing ss
    if ss2.data.contains '/' then
      match pyFloat (lastSplitPart ss2 '/') with
      | some q => if q = 0 then .exn else .ok (.num (1 / q))
      | none => .exn
    else if ss2.data.contains aposChar then
      match splitTwoChar ss2 aposChar with
      | some p => .ok (.str (pyStrMul p.1 60 ++ p.2))
      | none => .exn
    else if ss2.data.contains 'm' then
      match splitTwoChar ss2 'm' with
      | some p => .ok (.str (pyStrMul p.1 60 ++ p.2))
      | none => .exn
    else if isdecimal ss2 then
      match pyFloat ss2 with
      | some q => .ok (.num q)
      | none => .exn
    else .ok .pyNone

-- ===== datetime: strptime/strftime for the format "%b %d, %Y at %H:%M" =====

def DAYS_IN_MONTH : List Nat := [31, 28, 31, 30, 31, 30, 31, 31, 30, 31, 30, 31]

def DAYS_BEFORE_MONTH : List Nat := [0, 31, 59, 90, 120, 151, 181, 212, 243, 273, 304, 334]

def MONTH_ABBREV : List String :=
  ["Jan", "Feb", "Mar", "Apr", "May", "Jun", "Jul", "Aug", "Sep", "Oct", "Nov", "Dec"]

/-- Proleptic Gregorian leap year test. -/
def isLeap (y : Nat) : Bool := y % 4 = 0 && (y % 100 ≠ 0 || y % 400 = 0)

/-- Number of days of month m in year y (1-based month). -/
def daysInMonth (y m : Nat) : Nat :=
  if m = 2 && isLeap y then 29 else DAYS_IN_MONTH.getD (m - 1) 31

/-- Days in the years before year y (proleptic Gregorian, as in datetime). -/
def daysBeforeYear (y : Nat) : Nat :=
  365 * (y - 1) + (y - 1) / 4 - (y - 1) / 100 + (y - 1) / 400

/-- Days in year y before the first of month m. -/
def daysBeforeMonth (y m : Nat) : Nat :=
  DAYS_BEFORE_MONTH.getD (m - 1) 0 + (if 2 < m && isLeap y then 1 else 0)

/-- Ordinal day number of y-m-d, with 0001-01-01 as day 1 (datetime.toordinal). -/
def ymd2ord (y m d : Nat) : Nat := daysBeforeYear y + daysBeforeMonth y m + d

/-- Inverse of ymd2ord, following the algorithm of datetime._ord2ymd. -/
def ord2ymd (nn : Nat) : Nat × Nat × Nat :=
  let n0 := nn - 1
  let n400 := n0 / 146097
  let r400 := n0 % 146097
  let n100 := r400 / 36524
  let r100 := r400 % 36524
  let n4 := r100 / 1461
  let r4 := r100 % 1461
  let n1 := r4 / 365
  let n := r4 % 365
  let year := n400 * 400 + n100 * 100 + n4 * 4 + n1 + 1
  if n1 = 4 ∨ n100 = 4 then (year - 1, 12, 31)
  else
    let leap := isLeap year
    let month0 := (n + 50) / 32
    let preceding0 := DAYS_BEFORE_MONTH.getD (month0 - 1) 0 + (if 2 < month0 && leap then 1 else 0)
    let mp :=
      if n < preceding0 then
        (month0 - 1,
          preceding0 - (DAYS_IN_MONTH.getD (month0 - 2) 31 + (if month0 - 1 = 2 && leap then 1 else 0)))
      else (month0, preceding0)
    (year, mp.1, n - mp.2 + 1)

/-- Zero-pad a number to two digits, as %d, %H and %M do. -/
def pad2 (n : Nat) : String := if n < 10 then "0" ++ toString n else toString n

/-- Zero-pad a year to four digits, as %Y does. -/
def pad4 (n : Nat) : String :=
  if n < 10 then "000" ++ toString n
  else if n < 100 then "00" ++ toString n
  else if n < 1000 then "0" ++ toString n
  else toString n

/-- Microseconds per minute: the autofill steps are whole-minute timedeltas. -/
def usPerMin : Int := 60000000

/-- strftime("%b %d, %Y at %H:%M") of a datetime held as microseconds from
0001-01-01 00:00 (sub-minute precision is not displayed by the format; the
datetime year range 1..9999 is not re-modelled). -/
def formatDT (t : Int) : String :=
  let mins := t.toNat / 60000000
  let dayOrd := mins / 1440 + 1
  let rem := mins % 1440
  let ymd := ord2ymd dayOrd
  MONTH_ABBREV.getD (ymd.2.1 - 1) "" ++ " " ++ pad2 ymd.2.2 ++ ", " ++ pad4 ymd.1 ++
    " at " ++ pad2 (rem / 60) ++ ":" ++ pad2 (rem % 60)

/-- One numeric field of strptime: one to maxLen digit characters. -/
def parseNatField (s : String) (maxLen : Nat) : Option Nat :=
  if s.data ≠ [] ∧ s.data.length ≤ maxLen ∧ s.data.all Char.isDigit then
    some (decDigitsVal s.data)
  else none

/-- strptime(s, "%b %d, %Y at %H:%M") followed by conversion to microseconds
from 0001-01-01 00:00. The parser accepts the canonical single-spaced form the
program reads and writes; failure models the ValueError strptime raises. -/
def parseDT (s : String) : Option Int :=
  match (splitOnChar ' ' s.data).map String.mk with
  | [mon, dayComma, year, atWord, hm] =>
    if atWord = "at" ∧ endsWithChar dayComma ',' then
      match MONTH_ABBREV.findIdx? (· == mon), parseNatField (dropLastChar dayComma) 2,
          parseNatField year 4, splitOnChar ':' hm.data with
      | some mi, some d, some y, [hs, ms] =>
        match parseNatField (String.mk hs) 2, parseNatField (String.mk ms) 2 with
        | some hh, some mm =>
          let m := mi + 1
          if year.data.length = 4 ∧ 1 ≤ y ∧ 1 ≤ d ∧ d ≤ daysInMonth y m ∧ hh ≤ 23 ∧ mm ≤ 59 then
            some ((((ymd2ord y m d - 1) * 1440 + hh * 60 + mm) * 60000000 : Nat) : Int)
          else none
        | _, _ => none
      | _, _, _, _ => none
    else none
  | _ => none

/-- The rounding of CPython timedelta division (_divide_and_round): divide,
round half to even; exact for the divisors used here when the delta divides
evenly. Only used with positive divisors. -/
def pyDivRound (a b : Int) : Int :=
  let q := Int.fdiv a b
  let r := a - q * b
  if 2 * r > b ∨ (2 * r = b ∧ q % 2 = 1) then q + 1 else q

-- ===== group_continuous_indices =====

/-- list.sort() of Python on integer row positions: ascending order (stability
is immaterial for integer values). -/
def pySort (l : List Int) : List Int := List.insertionSort (· ≤ ·) l

/-- The loop of group_continuous_indices: cur is the group being grown, prev
the previously seen element of the sorted list. -/
def groupAux (cur : List Int) (prev : Int) : List Int → List (List Int)
  | [] => [cur]
  | x :: xs => if x = prev + 1 then groupAux (cur ++ [x]) x xs else cur :: groupAux [x] x xs

/-- The grouping pass over the already-sorted list. -/
def groupSorted : List Int → List (List Int)
  | [] => []
  | x :: xs => groupAux [x] x xs

/-- Embeds group_continuous_indices from apply_exif.py (return value). The
paired state-passing version below also records the in-place sort of the
argument list. -/
def group_continuous_indices (indices : List Int) : List (List Int) :=
  if indices = [] then [] else groupSorted (pySort indices)

/-- State-passing form of group_continuous_indices: first component the return
value, second the contents of the caller-supplied list after the call (the
function sorts its argument in place before grouping). -/
def group_continuous_indices_state (indices : List Int) : List (List Int) × List Int :=
  if indices = [] then ([], indices)
  else (groupSorted (pySort indices), pySort indices)

/-- Adjacent groups G, G2 cannot be merged: the head of G2 is not one more
than the last element of G. -/
def notMergeable (g g2 : List Int) : Prop :=
  ∀ a b, g.getLast? = some a → g2.head? = some b → b ≠ a + 1

-- ===== autofill_group =====

/-- Python truthiness of a fetched cell reference: None and the empty string
are falsy, any other string truthy. -/
def truthy (o : Option String) : Bool := decide (o.getD "" ≠ "")

/-- A sequence of tree.set cell writes on the column, applied in order; the
group indices come from the tree selection, so each names a valid row. -/
def applyWrites (ws : List (Nat × String)) (col : List String) : List String :=
  ws.foldl (fun c w => c.set w.1 w.2) col

/-- The only-end-ref date loop: for offset, i in enumerate(reversed(indices)),
write ref_end minus (offset + 1) minutes at row i. -/
def backWrites (indices : List Nat) (e : Int) : List (Nat × String) :=
  indices.reverse.enum.map fun p => (p.2, formatDT (e - ((p.1 : Int) + 1) * usPerMin))

/-- The only-start-ref date loop: for offset, i in enumerate(indices), write
ref_start plus (offset + 1) minutes at row i. -/
def fwdWrites (indices : List Nat) (s : Int) : List (Nat × String) :=
  indices.enum.map fun p => (p.2, formatDT (s + ((p.1 : Int) + 1) * usPerMin))

/-- The interpolation loop: time_step is the delta divided (timedelta division)
by len(indices) + 1, row number mult of the group gets start plus
(mult + 1) * time_step. -/
def interpWrites (indices : List Nat) (s e : Int) : List (Nat × String) :=
  indices.enum.map fun p =>
    (p.2, formatDT (s + ((p.1 : Int) + 1) * pyDivRound (e - s) ((indices.length : Int) + 1)))

/-- The body of autofill_group after the two boundary references have been
fetched: the unreachable whole-list guard, then the four availability cases.
none models an uncaught strptime ValueError; silent fallthrough paths return
the column unchanged. -/
def autofill_core (col : List String) (indices : List Nat) (is_date_col : Bool)
    (ref_start_index ref_end_index : Int)
    (ref_start ref_end : Option String) : Option (List String) :=
  if ref_start_index < 0 ∧ (col.length : Int) ≤ ref_end_index then
    some col
  else if truthy ref_start = false ∧ truthy ref_end = true then
    if is_date_col then
      match parseDT (ref_end.getD "") with
      | none => none
      | some e => some (applyWrites (backWrites indices e) col)
    else
      some (applyWrites (indices.map fun i => (i, ref_end.getD "")) col)
  else if truthy ref_start = true ∧ truthy ref_end = false then
    if is_date_col then
      match parseDT (ref_start.getD "") with
      | none => none
      | some s => some (applyWrites (fwdWrites indices s) col)
    else
      some (applyWrites (indices.map fun i => (i, ref_start.getD "")) col)
  else if truthy ref_start = true ∧ truthy ref_end = true then
    if ref_start = ref_end then
      some (applyWrites (indices.map fun i => (i, ref_start.getD "")) col)
    else if is_date_col then
      match parseDT (ref_start.getD ""), parseDT (ref_end.getD "") with
      | some s, some e => some (applyWrites (interpWrites indices s e) col)
      | _, _ => none
    else some col
  else some col

/-- Embeds ApplyExifApp.autofill_group from apply_exif.py, restricted to the
one column it touches: col holds the cells of that column for all rows of the
tree, indices is the contiguous selection group. ref_start_index is clamped by
max(0, ...) exactly as in the source; an out-of-range fetch is the caught
IndexError, giving None. An empty group would raise IndexError at indices[0]. -/
def autofill_group (col : List String) (indices : List Nat) (is_date_col : Bool) :
    Option (List String) :=
  match indices with
  | [] => none
  | i0 :: rest =>
    let lastIdx : Nat := (i0 :: rest).getLast (List.cons_ne_nil i0 rest)
    let rsi : Int := max 0 ((i0 : Int) - 1)
    let rei : Int := (lastIdx : Int) + 1
    autofill_core col (i0 :: rest) is_date_col rsi rei (col[rsi.toNat]?) (col[rei.toNat]?)

/-- Following the words of the claim, for comparison with the source: start_ref
is read from the row at position min(group) - 1 and is absent when that
position lies outside the table, including below zero (the source instead
clamps the position to 0). -/
def autofill_group_claim_refs (col : List String) (indices : List Nat) (is_date_col : Bool) :
    Option (List String) :=
  match indices with
  | [] => none
  | i0 :: rest =>
    let lastIdx : Nat := (i0 :: rest).getLast (List.cons_ne_nil i0 rest)
    let rsi : Int := (i0 : Int) - 1
    let rei : Int := (lastIdx : Int) + 1
    autofill_core col (i0 :: rest) is_date_col rsi rei
      (if rsi < 0 then none else col[rsi.toNat]?) (col[rei.toNat]?)

-- ===== check_match and the two export paths =====

/-- Embeds check_match from apply_exif.py: False (after printing) when the
image count and the metadata row count differ. -/
def check_match {α β : Type} (images : List α) (exif_data : List β) : Bool :=
  images.length == exif_data.length

/-- The row-matching slice of the batch main(): on a count mismatch it returns
before the per-image loop, so no external-tool invocation is built (none);
otherwise one invocation per zipped image/row pair. -/
def main_export {α β : Type} (images : List α) (exif_data : List β) :
    Option (List (α × β)) :=
  if check_match images exif_data then some (images.zip exif_data) else none

/-- Outcome of the interactive export path: whether the mismatch warning box
was shown, and the commands built afterwards (the source builds one command
per zipped image/row pair and continues past the warning). -/
structure ExportOutcome (α β : Type) where
  warned : Bool
  commands : List (α × β)

/-- Embeds the control flow of ApplyExifApp.on_export around the length check:
a mismatch surfaces a warning box but execution falls through to building the
command list. -/
def on_export {α β : Type} (image_files : List α) (children : List β) :
    ExportOutcome α β :=
  ⟨decide (children.length ≠ image_files.length), image_files.zip children⟩

-- ===== lemmas about the grouper =====

theorem join_groupAux (xs : List Int) : ∀ (cur : List Int) (prev : Int),
    (groupAux cur prev xs).flatten = cur ++ xs := by
  induction xs with
  | nil => intro cur prev; simp [groupAux]
  | cons x xs ih =>
    intro cur prev
    by_cases h : x = prev + 1
    · simp [groupAux, h, ih]
    · simp [groupAux, h, ih]

theorem chain_groupAux (xs : List Int) : ∀ (cur : List Int) (prev : Int),
    List.Chain' (fun a b => b = a + 1) cur → cur.getLast? = some prev →
    ∀ g ∈ groupAux cur prev xs, List.Chain' (fun a b => b = a + 1) g := by
  induction xs with
  | nil =>
    intro cur prev hc _ g hg
    rw [groupAux, List.mem_singleton] at hg
    exact hg ▸ hc
  | cons x xs ih =>
    intro cur prev hc hl g hg
    by_cases h : x = prev + 1
    · rw [groupAux, if_pos h] at hg
      refine ih (cur ++ [x]) x ?_ (List.getLast?_concat cur) g hg
      rw [List.chain'_append]
      refine ⟨hc, List.chain'_singleton x, ?_⟩
      intro a ha b hb
      rw [hl, Option.mem_some_iff] at ha
      rw [List.head?_cons, Option.mem_some_iff] at hb
      subst ha
      subst hb
      exact h
    · rw [groupAux, if_neg h] at hg
      rcases List.mem_cons.1 hg with hg | hg
      · exact hg ▸ hc
      · exact ih [x] x (List.chain'_singleton x) rfl g hg

theorem groupAux_first_head (xs : List Int) : ∀ (c : Int) (cs : List Int) (prev : Int),
    ∃ g gs, groupAux (c :: cs) prev xs = g :: gs ∧ g.head? = some c := by
  induction xs with
  | nil => intro c cs prev; exact ⟨c :: cs, [], rfl, rfl⟩
  | cons x xs ih =>
    intro c cs prev
    by_cases h : x = prev + 1
    · rw [groupAux, if_pos h]
      exact ih c (cs ++ [x]) x
    · rw [groupAux, if_neg h]
      exact ⟨c :: cs, groupAux [x] x xs, rfl, rfl⟩

theorem nm_groupAux (xs : List Int) : ∀ (cur : List Int) (prev : Int),
    cur.getLast? = some prev →
    List.Chain' notMergeable (groupAux cur prev xs) := by
  induction xs with
  | nil => intro cur prev _; exact List.chain'_singleton cur
  | cons x xs ih =>
    intro cur prev hl
    by_cases h : x = prev + 1
    · rw [groupAux, if_pos h]
      exact ih (cur ++ [x]) x (List.getLast?_concat cur)
    · rw [groupAux, if_neg h]
      rw [List.chain'_cons']
      obtain ⟨g, gs, hgg, hhead⟩ := groupAux_first_head xs x [] x
      refine ⟨?_, ih [x] x rfl⟩
      intro y hy
      rw [hgg, List.head?_cons, Option.mem_some_iff] at hy
      intro a b hla hhb hab
      rw [hl] at hla
      cases hla
      rw [← hy, hhead] at hhb
      cases hhb
      exact h hab

theorem pySort_nil : pySort [] = [] := rfl

theorem pySort_sorted (l : List Int) : List.Sorted (· ≤ ·) (pySort l) :=
  List.sorted_insertionSort _ l

theorem pySort_perm (l : List Int) : (pySort l).Perm l :=
  List.perm_insertionSort _ l

theorem pySort_eq_of_perm {l l2 : List Int} (h : l.Perm l2) : pySort l = pySort l2 :=
  List.eq_of_perm_of_sorted (((pySort_perm l).trans h).trans (pySort_perm l2).symm)
    (pySort_sorted l) (pySort_sorted l2)

/-- Claim C1: for every collection of integer row positions,
group_continuous_indices returns groups whose concatenation is the sorted
input (a sorted permutation of it), every group is internally consecutive,
no two adjacent groups are mergeable, the empty input gives the empty output,
and the input of the worked example gives the groups of the worked example. -/
theorem group_continuous_indices_spec (l : List Int) :
    (group_continuous_indices l).flatten = pySort l
    ∧ List.Sorted (· ≤ ·) (pySort l)
    ∧ (pySort l).Perm l
    ∧ (∀ g ∈ group_continuous_indices l, List.Chain' (fun a b => b = a + 1) g)
    ∧ List.Chain' notMergeable (group_continuous_indices l)
    ∧ group_continuous_indices [] = []
    ∧ group_continuous_indices [1, 4, 5, 7, 8, 9, 10] = [[1], [4, 5], [7, 8, 9, 10]] := by
  refine ⟨?_, pySort_sorted l, pySort_perm l, ?_, ?_, by decide, by decide⟩
  · by_cases hl : l = []
    · subst hl; rfl
    · have hne : pySort l ≠ [] := by
        intro h
        exact hl (List.Perm.eq_nil ((pySort_perm l).symm.trans (h ▸ List.Perm.refl _)))
      rw [group_continuous_indices, if_neg hl]
      cases hs : pySort l with
      | nil => exact absurd hs hne
      | cons x xs => rw [groupSorted, join_groupAux]; rfl
  · by_cases hl : l = []
    · subst hl; intro g hg; cases hg
    · rw [group_continuous_indices, if_neg hl]
      cases hs : pySort l with
      | nil => intro g hg; cases hg
      | cons x xs =>
        exact chain_groupAux xs [x] x (List.chain'_singleton x) rfl
  · by_cases hl : l = []
    · subst hl; exact List.chain'_nil
    · rw [group_continuous_indices, if_neg hl]
      cases hs : pySort l with
      | nil => exact List.chain'_nil
      | cons x xs => exact nm_groupAux xs [x] x rfl

/-- Claim C1 witness: the group [7, 8, 9, 10] of the worked example is a member
of the output and internally consecutive. -/
theorem group_continuous_indices_spec_witness :
    List.Chain' (fun a b => b = a + 1) ([7, 8, 9, 10] : List Int) :=
  (group_continuous_indices_spec [1, 4, 5, 7, 8, 9, 10]).2.2.2.1 [7, 8, 9, 10] (by decide)

/-- Claim C9 counterexample: the call sorts its argument list in place, so for
the input [2, 1] the contents of the input object afterwards are [1, 2], not
the original [2, 1]: the input is not left unmodified. -/
theorem group_continuous_indices_mutates :
    (group_continuous_indices_state [2, 1]).2 = [1, 2]
    ∧ ([1, 2] : List Int) ≠ [2, 1] := by decide

/-- Claim C9 (amended): group_continuous_indices sorts its argument in place
(afterwards the list holds the sorted input), and its result depends only on
the contents of the input: inputs that are permutations of one another give
the same result. -/
theorem group_continuous_indices_state_spec (l l2 : List Int) (hp : l.Perm l2) :
    (group_continuous_indices_state l).2 = pySort l
    ∧ (group_continuous_indices_state l).1 = group_continuous_indices l
    ∧ group_continuous_indices l = group_continuous_indices l2 := by
  refine ⟨?_, ?_, ?_⟩
  · by_cases hl : l = []
    · subst hl; rfl
    · rw [group_continuous_indices_state, if_neg hl]
  · by_cases hl : l = []
    · subst hl; rfl
    · rw [group_continuous_indices_state, if_neg hl, group_continuous_indices, if_neg hl]
  · have hlen := hp.length_eq
    by_cases hl : l = []
    · have hl2 : l2 = [] := by
        subst hl; exact List.eq_nil_of_length_eq_zero (by rw [← hlen]; rfl)
      subst hl; subst hl2; rfl
    · have hl2 : l2 ≠ [] := by
        intro h; subst h
        exact hl (List.eq_nil_of_length_eq_zero (by rw [hlen]; rfl))
      rw [group_continuous_indices, if_neg hl, group_continuous_indices, if_neg hl2,
        pySort_eq_of_perm hp]

/-- Claim C9 witness: the amended statement at the concrete permuted inputs
[2, 1] and [1, 2]. -/
theorem group_continuous_indices_state_spec_witness :
    (group_continuous_indices_state [2, 1]).2 = pySort [2, 1]
    ∧ (group_continuous_indices_state [2, 1]).1 = group_continuous_indices [2, 1]
    ∧ group_continuous_indices [2, 1] = group_continuous_indices [1, 2] :=
  group_continuous_indices_state_spec [2, 1] [1, 2] (by decide)

-- ===== theorems about ss_to_float =====

theorem ss_to_float_slash_helper (ss : String) (q : ℚ)
    (hne : ss ≠ "-")
    (hsl : (stripTrailing ss).data.contains '/' = true)
    (hq : pyFloat (lastSplitPart (stripTrailing ss) '/') = some q)
    (hq0 : q ≠ 0) :
    ss_to_float ss = .ok (.num (1 / q)) := by
  rw [ss_to_float, if_neg hne]
  simp only [hsl, hq, if_true]
  rw [if_neg hq0]

/-- Claim C7 (code bug): the fraction, quoted-seconds and placeholder shapes
behave as described, but the minutes-and-seconds shape hits the Python
string-arithmetic slip minute * 60 + second on strings: "1m30" yields the
62-character string of sixty copies of "1" followed by "30", not 90 seconds.
Evaluation of the embedding at those inputs. -/
theorem ss_to_float_minutes_bug :
    ss_to_float "1/125" = .ok (.num (1 / 125))
    ∧ ss_to_float "2\"" = .ok (.num 2)
    ∧ ss_to_float "-" = .ok (.str "")
    ∧ ss_to_float "1m30" = .ok (.str (pyStrMul "1" 60 ++ "30"))
    ∧ ss_to_float "1m30" ≠ .ok (.num 90) := by
  refine ⟨?_, by decide, by decide, by decide, by decide⟩
  exact ss_to_float_slash_helper "1/125" 125 (by decide) (by decide) (by decide) (by decide)

/-- Claim C10: whenever the (suffix-stripped) input contains a slash and the
text after the last slash parses as a nonzero float q, ss_to_float returns
1 / q; the part before the last slash never enters the result. -/
theorem ss_to_float_slash_spec (ss : String) (q : ℚ)
    (hne : ss ≠ "-")
    (hsl : (stripTrailing ss).data.contains '/' = true)
    (hq : pyFloat (lastSplitPart (stripTrailing ss) '/') = some q)
    (hq0 : q ≠ 0) :
    ss_to_float ss = .ok (.num (1 / q)) :=
  ss_to_float_slash_helper ss q hne hsl hq hq0

/-- Claim C10 witness: the numerator is ignored, so "3/125" and "1/125" both
yield 1/125. -/
theorem ss_to_float_slash_spec_witness :
    ss_to_float "3/125" = .ok (.num (1 / 125))
    ∧ ss_to_float "1/125" = .ok (.num (1 / 125)) :=
  ⟨ss_to_float_slash_spec "3/125" 125 (by decide) (by decide) (by decide) (by decide),
   ss_to_float_slash_spec "1/125" 125 (by decide) (by decide) (by decide) (by decide)⟩

-- ===== theorems about the export paths =====

/-- Claim C8: when the image count and the metadata row count differ, the
interactive export path sets the warning and still builds the zipped command
list (it does not hard-stop), while the batch path returns none: it aborts
before building any external-tool invocation. -/
theorem export_mismatch_spec {α β : Type} (images : List α) (rows : List β)
    (h : images.length ≠ rows.length) :
    (on_export images rows).warned = true
    ∧ (on_export images rows).commands = images.zip rows
    ∧ main_export images rows = none := by
  refine ⟨decide_eq_true (fun hh => h hh.symm), rfl, ?_⟩
  rw [main_export]
  have hc : check_match images rows = false := by
    rw [check_match]
    exact beq_eq_false_iff_ne.mpr h
  rw [hc]
  rfl

/-- Claim C8 witness: five images and four metadata rows. -/
theorem export_mismatch_spec_witness :
    (on_export ([0, 1, 2, 3, 4] : List Nat) (["a", "b", "c", "d"] : List String)).warned = true
    ∧ (on_export ([0, 1, 2, 3, 4] : List Nat) (["a", "b", "c", "d"] : List String)).commands
        = ([0, 1, 2, 3, 4] : List Nat).zip ["a", "b", "c", "d"]
    ∧ main_export ([0, 1, 2, 3, 4] : List Nat) (["a", "b", "c", "d"] : List String) = none :=
  export_mismatch_spec [0, 1, 2, 3, 4] ["a", "b", "c", "d"] (by decide)

-- ===== closed evaluations of autofill_group at the disputed inputs =====

/-- Claim C3 (code bug): the whole-list guard of autofill_group is dead code,
because ref_start_index is clamped by max(0, ...) and can never be negative;
for a group touching both table edges with a nonempty first cell, the
only-start-ref branch fires using the first cell of the group itself, and the
group IS modified. Evaluation at the failing input: both rows selected in a
two-row table whose first cell is "x". -/
theorem autofill_both_edges_eval :
    autofill_group ["x", ""] [0, 1] false = some ["x", "x"]
    ∧ (["x", "x"] : List String) ≠ ["x", ""] := by
  exact ⟨by decide, by decide⟩

/-- Claim C4 counterexample: for the group [0] in the two-row table
["a", "b"], the source reads start_ref from the clamped position
max(0, 0 - 1) = 0, the first cell of the group itself, not from position -1
treated as absent as the claim says; the source model and the claim model
disagree on this input. -/
theorem autofill_refs_cex :
    autofill_group ["a", "b"] [0] false ≠ autofill_group_claim_refs ["a", "b"] [0] false
    ∧ autofill_group ["a", "b"] [0] false = some ["a", "b"]
    ∧ autofill_group_claim_refs ["a", "b"] [0] false = some ["b", "b"] := by
  exact ⟨by decide, by decide, by decide⟩

-- ===== lemmas about applyWrites and the write lists =====

theorem applyWrites_nil (col : List String) : applyWrites [] col = col := rfl

theorem applyWrites_cons (w : Nat × String) (ws : List (Nat × String)) (col : List String) :
    applyWrites (w :: ws) col = applyWrites ws (col.set w.1 w.2) := rfl

theorem applyWrites_getElem?_of_not_mem (ws : List (Nat × String)) (col : List String) (j : Nat)
    (h : ∀ p ∈ ws, p.1 ≠ j) : (applyWrites ws col)[j]? = col[j]? := by
  induction ws generalizing col with
  | nil => rfl
  | cons w ws ih =>
    rw [applyWrites_cons, ih _ (fun p hp => h p (List.mem_cons_of_mem w hp)),
      List.getElem?_set_ne (h w (List.mem_cons_self w ws))]

theorem applyWrites_getElem?_of_mem (ws : List (Nat × String)) (col : List String)
    (j : Nat) (v : String) (hnd : (ws.map Prod.fst).Nodup) (hmem : (j, v) ∈ ws)
    (hlen : j < col.length) : (applyWrites ws col)[j]? = some v := by
  induction ws generalizing col with
  | nil => cases hmem
  | cons w ws ih =>
    rw [applyWrites_cons]
    rw [List.map_cons, List.nodup_cons] at hnd
    rcases List.mem_cons.1 hmem with heq | hmem2
    · have hw1 : w.1 = j := by rw [← heq]
      have hj : ∀ p ∈ ws, p.1 ≠ j := by
        intro p hp hpj
        apply hnd.1
        rw [hw1, ← hpj]
        exact List.mem_map_of_mem Prod.fst hp
      rw [applyWrites_getElem?_of_not_mem ws _ j hj, ← heq]
      exact List.getElem?_set_self hlen
    · exact ih (col.set w.1 w.2) hnd.2 hmem2 (by rw [List.length_set]; exact hlen)

theorem mem_enum_of_getElem? {α : Type} {l : List α} {k : Nat} {a : α}
    (h : l[k]? = some a) : (k, a) ∈ l.enum := by
  apply List.getElem?_mem (n := k)
  rw [List.enum, List.getElem?_enumFrom, h]
  simp

theorem enum_map_write_fst (l : List Nat) (f : Nat → String) :
    ((l.enum.map fun p => (p.2, f p.1)).map Prod.fst) = l := by
  rw [List.map_map]
  have h : (Prod.fst ∘ fun p : Nat × Nat => (p.2, f p.1)) = Prod.snd := rfl
  rw [h, List.enum, List.enumFrom_map_snd]

theorem applyWrites_enumMap_getElem? (l : List Nat) (f : Nat → String) (col : List String)
    (hnd : l.Nodup) (k i : Nat) (hk : l[k]? = some i) (hlen : i < col.length) :
    (applyWrites (l.enum.map fun p => (p.2, f p.1)) col)[i]? = some (f k) := by
  apply applyWrites_getElem?_of_mem
  · rw [enum_map_write_fst]; exact hnd
  · exact List.mem_map_of_mem _ (mem_enum_of_getElem? hk)
  · exact hlen

-- ===== truthiness and index arithmetic lemmas =====

theorem truthy_some_ne {v : String} (h : v ≠ "") : truthy (some v) = true := by
  rw [truthy, Option.getD_some]
  exact decide_eq_true h

theorem toNat_max_zero_sub_one (n : Nat) : (max 0 ((n : Int) - 1)).toNat = n - 1 := by
  rcases n with _ | m
  · decide
  · rw [max_eq_right (by omega : (0 : Int) ≤ (m + 1 : Nat) - 1)]
    omega

theorem toNat_cast_add_one (n : Nat) : (((n : Nat) : Int) + 1).toNat = n + 1 := by omega

theorem autofill_group_eq_core (col : List String) (i0 : Nat) (rest : List Nat) (d : Bool) :
    autofill_group col (i0 :: rest) d
      = autofill_core col (i0 :: rest) d (max 0 ((i0 : Int) - 1))
          (((i0 :: rest).getLast (List.cons_ne_nil i0 rest) : Int) + 1)
          (col[i0 - 1]?) (col[(i0 :: rest).getLast (List.cons_ne_nil i0 rest) + 1]?) := by
  simp only [autofill_group]
  rw [toNat_max_zero_sub_one, toNat_cast_add_one]

-- ===== branch lemmas for autofill_core =====

theorem autofill_core_only_end_nondate (col : List String) (indices : List Nat)
    (rsi rei : Int) (rs : Option String) (ve : String)
    (hrsi : 0 ≤ rsi) (hs : truthy rs = false) (hve : ve ≠ "") :
    autofill_core col indices false rsi rei rs (some ve)
      = some (applyWrites (indices.map fun i => (i, ve)) col) := by
  rw [autofill_core]
  rw [if_neg (fun hc => absurd hrsi (not_le.2 hc.1))]
  rw [if_pos ⟨hs, truthy_some_ne hve⟩]
  rfl

theorem autofill_core_only_end_date (col : List String) (indices : List Nat)
    (rsi rei : Int) (rs : Option String) (ve : String) (e : Int)
    (hrsi : 0 ≤ rsi) (hs : truthy rs = false) (hve : ve ≠ "") (hpe : parseDT ve = some e) :
    autofill_core col indices true rsi rei rs (some ve)
      = some (applyWrites (backWrites indices e) col) := by
  rw [autofill_core]
  rw [if_neg (fun hc => absurd hrsi (not_le.2 hc.1))]
  rw [if_pos ⟨hs, truthy_some_ne hve⟩]
  rw [if_pos rfl]
  simp only [Option.getD_some]
  rw [hpe]

theorem autofill_core_only_start_nondate (col : List String) (indices : List Nat)
    (rsi rei : Int) (vs : String) (re : Option String)
    (hrsi : 0 ≤ rsi) (hvs : vs ≠ "") (he : truthy re = false) :
    autofill_core col indices false rsi rei (some vs) re
      = some (applyWrites (indices.map fun i => (i, vs)) col) := by
  have ht := truthy_some_ne hvs
  rw [autofill_core]
  rw [if_neg (fun hc => absurd hrsi (not_le.2 hc.1))]
  rw [if_neg (fun hc => by rw [ht] at hc; exact Bool.noConfusion hc.1)]
  rw [if_pos ⟨ht, he⟩]
  rfl

theorem autofill_core_only_start_date (col : List String) (indices : List Nat)
    (rsi rei : Int) (vs : String) (re : Option String) (s : Int)
    (hrsi : 0 ≤ rsi) (hvs : vs ≠ "") (he : truthy re = false) (hps : parseDT vs = some s) :
    autofill_core col indices true rsi rei (some vs) re
      = some (applyWrites (fwdWrites indices s) col) := by
  have ht := truthy_some_ne hvs
  rw [autofill_core]
  rw [if_neg (fun hc => absurd hrsi (not_le.2 hc.1))]
  rw [if_neg (fun hc => by rw [ht] at hc; exact Bool.noConfusion hc.1)]
  rw [if_pos ⟨ht, he⟩]
  rw [if_pos rfl]
  simp only [Option.getD_some]
  rw [hps]

theorem autofill_core_equal (col : List String) (indices : List Nat) (d : Bool)
    (rsi rei : Int) (v : String) (hrsi : 0 ≤ rsi) (hv : v ≠ "") :
    autofill_core col indices d rsi rei (some v) (some v)
      = some (applyWrites (indices.map fun i => (i, v)) col) := by
  have ht := truthy_some_ne hv
  rw [autofill_core]
  rw [if_neg (fun hc => absurd hrsi (not_le.2 hc.1))]
  rw [if_neg (fun hc => by rw [ht] at hc; exact Bool.noConfusion hc.1)]
  rw [if_neg (fun hc => by rw [ht] at hc; exact Bool.noConfusion hc.2)]
  rw [if_pos ⟨ht, ht⟩]
  rw [if_pos rfl]
  rfl

theorem autofill_core_interp (col : List String) (indices : List Nat)
    (rsi rei : Int) (vs ve : String) (s e : Int)
    (hrsi : 0 ≤ rsi) (hvs : vs ≠ "") (hve : ve ≠ "") (hneq : vs ≠ ve)
    (hps : parseDT vs = some s) (hpe : parseDT ve = some e) :
    autofill_core col indices true rsi rei (some vs) (some ve)
      = some (applyWrites (interpWrites indices s e) col) := by
  have hts := truthy_some_ne hvs
  have hte := truthy_some_ne hve
  rw [autofill_core]
  rw [if_neg (fun hc => absurd hrsi (not_le.2 hc.1))]
  rw [if_neg (fun hc => by rw [hts] at hc; exact Bool.noConfusion hc.1)]
  rw [if_neg (fun hc => by rw [hte] at hc; exact Bool.noConfusion hc.2)]
  rw [if_pos ⟨hts, hte⟩]
  rw [if_neg (fun hc => hneq (Option.some.inj hc))]
  rw [if_pos rfl]
  simp only [Option.getD_some]
  rw [hps, hpe]

-- ===== per-row write lemmas =====

theorem const_map_write_fst (l : List Nat) (v : String) :
    ((l.map fun i => (i, v)).map Prod.fst) = l := by
  rw [List.map_map]
  have h : (Prod.fst ∘ fun i : Nat => (i, v)) = id := rfl
  rw [h, List.map_id]

theorem applyWrites_constMap_getElem? (l : List Nat) (v : String) (col : List String)
    (hnd : l.Nodup) (i : Nat) (hi : i ∈ l) (hlen : i < col.length) :
    (applyWrites (l.map fun j => (j, v)) col)[i]? = some v := by
  apply applyWrites_getElem?_of_mem
  · rw [const_map_write_fst]; exact hnd
  · exact List.mem_map_of_mem _ hi
  · exact hlen

-- ===== claim theorems about autofill_group =====

/-- Claim C4 (amended): autofill_group reads start_ref from the row at the
clamped position max(0, min(group) - 1) (the Nat subtraction i0 - 1), reads
end_ref from the row at position max(group) + 1, and an end position at or
beyond the table length yields an absent reference (the caught IndexError)
rather than an exception. -/
theorem autofill_refs_amended (col : List String) (i0 : Nat) (rest : List Nat) (d : Bool) :
    autofill_group col (i0 :: rest) d
      = autofill_core col (i0 :: rest) d (max 0 ((i0 : Int) - 1))
          (((i0 :: rest).getLast (List.cons_ne_nil i0 rest) : Int) + 1)
          (col[i0 - 1]?) (col[(i0 :: rest).getLast (List.cons_ne_nil i0 rest) + 1]?)
    ∧ (col.length ≤ (i0 :: rest).getLast (List.cons_ne_nil i0 rest) + 1 →
        col[(i0 :: rest).getLast (List.cons_ne_nil i0 rest) + 1]? = none) :=
  ⟨autofill_group_eq_core col i0 rest d, fun h => List.getElem?_eq_none h⟩

/-- Claim C4 witness: the amended statement at the one-row table with the
group [0]: the start reference position clamps to row 0 and the end position 1
is outside the table, so the end reference is absent, without an exception. -/
theorem autofill_refs_amended_witness :
    autofill_group ["a"] [0] false
      = autofill_core ["a"] [0] false (max 0 ((0 : Int) - 1)) (((0 : Nat) : Int) + 1)
          ((["a"] : List String)[0 - 1]?) ((["a"] : List String)[0 + 1]?)
    ∧ (["a"] : List String)[0 + 1]? = none := by
  have h := autofill_refs_amended ["a"] 0 [] false
  exact ⟨h.1, h.2 (by decide)⟩

/-- Claim C6: when both fetched boundary references hold the same nonempty
value, autofill_group copies that shared value into every row of the group,
for the date column and non-date columns alike. -/
theorem autofill_equal_refs_spec (col : List String) (i0 : Nat) (rest : List Nat)
    (lastI : Nat) (v : String) (d : Bool)
    (hl : (i0 :: rest).getLast (List.cons_ne_nil i0 rest) = lastI)
    (hnd : (i0 :: rest).Nodup)
    (hbd : ∀ i ∈ i0 :: rest, i < col.length)
    (hs : col[i0 - 1]? = some v) (he : col[lastI + 1]? = some v) (hv : v ≠ "") :
    autofill_group col (i0 :: rest) d
      = some (applyWrites ((i0 :: rest).map fun i => (i, v)) col)
    ∧ ∀ i ∈ i0 :: rest,
        (applyWrites ((i0 :: rest).map fun i => (i, v)) col)[i]? = some v := by
  constructor
  · rw [autofill_group_eq_core, hl, hs, he]
    exact autofill_core_equal col (i0 :: rest) d _ _ v (le_max_left 0 _) hv
  · intro i hi
    exact applyWrites_constMap_getElem? (i0 :: rest) v col hnd i hi (hbd i hi)

/-- Claim C6 witness: the column ["10:00", "", "", "10:00"] with the middle two
rows selected; both boundary references are "10:00", so both middle rows
become "10:00" (no date parsing happens, although the date column is used). -/
theorem autofill_equal_refs_spec_witness :
    autofill_group ["10:00", "", "", "10:00"] [1, 2] true
      = some (applyWrites ([1, 2].map fun i => (i, "10:00")) ["10:00", "", "", "10:00"])
    ∧ applyWrites ([1, 2].map fun i => (i, "10:00")) ["10:00", "", "", "10:00"]
        = ["10:00", "10:00", "10:00", "10:00"] := by
  constructor
  · exact (autofill_equal_refs_spec ["10:00", "", "", "10:00"] 1 [2] 2 "10:00" true rfl
      (by decide) (by decide) rfl rfl (by decide)).1
  · decide

/-- Claim C5: when exactly one fetched boundary reference is truthy,
autofill_group copies it into every row for a non-date column; for the date
column with only end_ref, row k of the group (0-indexed) gets end_ref minus
(len - k) minutes, so the row nearest the boundary is one minute earlier and
earlier rows progressively earlier; with only start_ref, row k gets start_ref
plus (k + 1) minutes. -/
theorem autofill_one_sided_spec (col : List String) (i0 : Nat) (rest : List Nat) (lastI : Nat)
    (hl : (i0 :: rest).getLast (List.cons_ne_nil i0 rest) = lastI)
    (hnd : (i0 :: rest).Nodup)
    (hbd : ∀ i ∈ i0 :: rest, i < col.length) :
    (∀ ve, truthy (col[i0 - 1]?) = false → col[lastI + 1]? = some ve → ve ≠ "" →
      autofill_group col (i0 :: rest) false
          = some (applyWrites ((i0 :: rest).map fun i => (i, ve)) col)
        ∧ ∀ i ∈ i0 :: rest,
            (applyWrites ((i0 :: rest).map fun i => (i, ve)) col)[i]? = some ve)
    ∧ (∀ ve e, truthy (col[i0 - 1]?) = false → col[lastI + 1]? = some ve → ve ≠ "" →
        parseDT ve = some e →
        autofill_group col (i0 :: rest) true
            = some (applyWrites (backWrites (i0 :: rest) e) col)
          ∧ ∀ (k i : Nat), (i0 :: rest)[k]? = some i →
              (applyWrites (backWrites (i0 :: rest) e) col)[i]?
                = some (formatDT (e - (((i0 :: rest).length - k : Nat) : Int) * usPerMin)))
    ∧ (∀ vs, col[i0 - 1]? = some vs → vs ≠ "" → truthy (col[lastI + 1]?) = false →
        autofill_group col (i0 :: rest) false
            = some (applyWrites ((i0 :: rest).map fun i => (i, vs)) col)
          ∧ ∀ i ∈ i0 :: rest,
              (applyWrites ((i0 :: rest).map fun i => (i, vs)) col)[i]? = some vs)
    ∧ (∀ vs s, col[i0 - 1]? = some vs → vs ≠ "" → truthy (col[lastI + 1]?) = false →
        parseDT vs = some s →
        autofill_group col (i0 :: rest) true
            = some (applyWrites (fwdWrites (i0 :: rest) s) col)
          ∧ ∀ (k i : Nat), (i0 :: rest)[k]? = some i →
              (applyWrites (fwdWrites (i0 :: rest) s) col)[i]?
                = some (formatDT (s + ((k : Int) + 1) * usPerMin))) := by
  refine ⟨?_, ?_, ?_, ?_⟩
  · intro ve hs he hve
    constructor
    · rw [autofill_group_eq_core, hl, he]
      exact autofill_core_only_end_nondate col (i0 :: rest) _ _ _ ve (le_max_left 0 _) hs hve
    · intro i hi
      exact applyWrites_constMap_getElem? (i0 :: rest) ve col hnd i hi (hbd i hi)
  · intro ve e hs he hve hpe
    constructor
    · rw [autofill_group_eq_core, hl, he]
      exact autofill_core_only_end_date col (i0 :: rest) _ _ _ ve e (le_max_left 0 _) hs hve hpe
    · intro k i hk
      have hklt : k < (i0 :: rest).length := by
        by_contra hnk
        rw [List.getElem?_eq_none (Nat.le_of_not_lt hnk)] at hk
        cases hk
      have hidx : (i0 :: rest).length - 1 - k < (i0 :: rest).length := by omega
      have hrev : (i0 :: rest).reverse[(i0 :: rest).length - 1 - k]? = some i := by
        rw [List.getElem?_reverse hidx]
        have harg : (i0 :: rest).length - 1 - ((i0 :: rest).length - 1 - k) = k := by omega
        rw [harg]
        exact hk
      have h := applyWrites_enumMap_getElem? (i0 :: rest).reverse
        (fun o => formatDT (e - ((o : Int) + 1) * usPerMin)) col
        (List.nodup_reverse.mpr hnd) ((i0 :: rest).length - 1 - k) i
        hrev (hbd i (List.getElem?_mem hk))
      have harith : ((((i0 :: rest).length - 1 - k : Nat) : Int) + 1)
          = (((i0 :: rest).length - k : Nat) : Int) := by omega
      rw [← harith]
      exact h
  · intro vs hs hvs he
    constructor
    · rw [autofill_group_eq_core, hl, hs]
      exact autofill_core_only_start_nondate col (i0 :: rest) _ _ vs _ (le_max_left 0 _) hvs he
    · intro i hi
      exact applyWrites_constMap_getElem? (i0 :: rest) vs col hnd i hi (hbd i hi)
  · intro vs s hs hvs he hps
    constructor
    · rw [autofill_group_eq_core, hl, hs]
      exact autofill_core_only_start_date col (i0 :: rest) _ _ vs _ s (le_max_left 0 _) hvs he hps
    · intro k i hk
      exact applyWrites_enumMap_getElem? (i0 :: rest)
        (fun o => formatDT (s + ((o : Int) + 1) * usPerMin)) col hnd k i hk
        (hbd i (List.getElem?_mem hk))

/-- Claim C5 witness: only the end reference "Dec 1, 2024 at 10:10" exists for
the group [0, 1] of a three-row table (the start fetch clamps to the empty
first cell of the group, which is falsy): the far row gets 10:08 and the row
nearest the boundary gets 10:09. -/
theorem autofill_one_sided_spec_witness :
    autofill_group ["", "", "Dec 1, 2024 at 10:10"] [0, 1] true
      = some (applyWrites (backWrites [0, 1] 63868644600000000) ["", "", "Dec 1, 2024 at 10:10"])
    ∧ applyWrites (backWrites [0, 1] 63868644600000000) ["", "", "Dec 1, 2024 at 10:10"]
        = ["Dec 01, 2024 at 10:08", "Dec 01, 2024 at 10:09", "Dec 1, 2024 at 10:10"] := by
  constructor
  · exact ((autofill_one_sided_spec ["", "", "Dec 1, 2024 at 10:10"] 0 [1] 1 rfl (by decide)
      (by decide)).2.1 "Dec 1, 2024 at 10:10" 63868644600000000 (by decide) rfl (by decide)
      (by decide)).1
  · decide

/-- Claim C2: when both fetched boundary references are truthy, differ, and the
column is the date column, autofill_group writes into row k of the group the
value start_ref + (k + 1) * step, where step is the timedelta division of
(end_ref - start_ref) by len(group) + 1. -/
theorem autofill_interpolation_spec (col : List String) (i0 : Nat) (rest : List Nat)
    (lastI : Nat) (vs ve : String) (s e : Int)
    (hl : (i0 :: rest).getLast (List.cons_ne_nil i0 rest) = lastI)
    (hnd : (i0 :: rest).Nodup)
    (hbd : ∀ i ∈ i0 :: rest, i < col.length)
    (hs : col[i0 - 1]? = some vs) (he : col[lastI + 1]? = some ve)
    (hvs : vs ≠ "") (hve : ve ≠ "") (hneq : vs ≠ ve)
    (hps : parseDT vs = some s) (hpe : parseDT ve = some e) :
    autofill_group col (i0 :: rest) true
      = some (applyWrites (interpWrites (i0 :: rest) s e) col)
    ∧ ∀ (k i : Nat), (i0 :: rest)[k]? = some i →
        (applyWrites (interpWrites (i0 :: rest) s e) col)[i]?
          = some (formatDT (s + ((k : Int) + 1)
              * pyDivRound (e - s) (((i0 :: rest).length : Int) + 1))) := by
  constructor
  · rw [autofill_group_eq_core, hl, hs, he]
    exact autofill_core_interp col (i0 :: rest) _ _ vs ve s e (le_max_left 0 _) hvs hve hneq
      hps hpe
  · intro k i hk
    exact applyWrites_enumMap_getElem? (i0 :: rest)
      (fun m => formatDT (s + ((m : Int) + 1)
        * pyDivRound (e - s) (((i0 :: rest).length : Int) + 1))) col hnd k i hk
      (hbd i (List.getElem?_mem hk))

/-- Claim C2 witness: start_ref "Dec 1, 2024 at 10:00", end_ref
"Dec 1, 2024 at 10:04", group of the three middle rows: the step is one minute
and the rows become 10:01, 10:02 and 10:03. -/
theorem autofill_interpolation_spec_witness :
    autofill_group ["Dec 1, 2024 at 10:00", "", "", "", "Dec 1, 2024 at 10:04"] [1, 2, 3] true
      = some (applyWrites (interpWrites [1, 2, 3] 63868644000000000 63868644240000000)
          ["Dec 1, 2024 at 10:00", "", "", "", "Dec 1, 2024 at 10:04"])
    ∧ applyWrites (interpWrites [1, 2, 3] 63868644000000000 63868644240000000)
          ["Dec 1, 2024 at 10:00", "", "", "", "Dec 1, 2024 at 10:04"]
        = ["Dec 1, 2024 at 10:00", "Dec 01, 2024 at 10:01", "Dec 01, 2024 at 10:02",
           "Dec 01, 2024 at 10:03", "Dec 1, 2024 at 10:04"] := by
  constructor
  · exact (autofill_interpolation_spec
      ["Dec 1, 2024 at 10:00", "", "", "", "Dec 1, 2024 at 10:04"] 1 [2, 3] 3
      "Dec 1, 2024 at 10:00" "Dec 1, 2024 at 10:04" 63868644000000000 63868644240000000
      rfl (by decide) (by decide) rfl rfl (by decide) (by decide) (by decide) (by decide)
      (by decide)).1
  · decide
